import Mathlib

/-!
Shallow embedding of the map-to-tensor conversion pipeline of the
Diffusion-Planner repository, together with proofs checking the
natural-language specification against it.

Embedded source files:
* `ros_ws/src/diffusion_planner_ros/diffusion_planner_ros/lanelet2_utils/lanelet_converter.py`
  (`_interpolate_points`, `_fix_point_num`, `_get_speed_limit_mph`,
  `process_segment`, `create_lane_tensor`)
* `diffusion_planner/utils/visualize_input.py` (the route-lane partial-mask
  check of `visualize_inputs`)

Conventions of the embedding:
* Python floats are embedded as exact rationals (`ℚ`) in the tensor-packing
  pipeline; the float literals `1.1`, `0.621371`, `0.44704`, `1e-6` of the
  source become the corresponding rational constants.
* The arc-length resampler works with real (`ℝ`) coordinates because segment
  lengths are square roots.
* Numpy arrays become `List`s; a `numSegments × 20 × 12` tensor becomes a
  `List (List (List ℚ))` (the leading batch dimension of size 1 is dropped).
* A Python function that can raise becomes an `Except String` value; a
  function that can return `None` for a missing value returns an `Option`.
-/

namespace DiffusionPlanner

/-! ### Part B: the per-cycle pipeline, `process_segment` and
`create_lane_tensor`, over exact rationals. -/

/-- Three-dimensional point with rational coordinates; embeds one row of a
numpy `(n, 3)` waypoint array. -/
structure Vec3 where
  x : ℚ
  y : ℚ
  z : ℚ
deriving DecidableEq, Repr

/-- Pointwise difference of two waypoints (numpy row subtraction). -/
def subV (a b : Vec3) : Vec3 := ⟨a.x - b.x, a.y - b.y, a.z - b.z⟩

/-- Homogeneous 4x4 transform matrix (`inv_transform_matrix_4x4` in the
source), given by its entries. -/
def Mat4 := Fin 4 → Fin 4 → ℚ

/-- Application of the homogeneous transform to a point: the source stacks the
waypoints with a row of ones (`np.vstack((pts.T, np.ones(n)))`), multiplies by
the 4x4 matrix and keeps the first three rows (`[:3, :].T`). -/
def applyMat (m : Mat4) (p : Vec3) : Vec3 :=
  ⟨m 0 0 * p.x + m 0 1 * p.y + m 0 2 * p.z + m 0 3,
   m 1 0 * p.x + m 1 1 * p.y + m 1 2 * p.z + m 1 3,
   m 2 0 * p.x + m 2 1 * p.y + m 2 2 * p.z + m 2 3⟩

/-- Embedding of a `LaneSegment` as consumed by `process_segment`: the
`Polyline` wrappers of `segment.polyline.waypoints`,
`segment.left_boundaries[0].polyline.waypoints` and
`segment.right_boundaries[0].polyline.waypoints` are flattened into three
waypoint lists.  `traffic_lights` holds the ids of the associated regulatory
elements; `speed_limit_mph` is `None`-able exactly as in the source. -/
structure LaneSegment where
  id : ℤ
  waypoints : List Vec3
  leftWaypoints : List Vec3
  rightWaypoints : List Vec3
  center : ℚ × ℚ
  speedLimitMph : Option ℚ
  trafficLights : List ℤ

/-- Constant `kph2mph = 0.621371` of `_get_speed_limit_mph`. -/
def kph2mph : ℚ := 621371 / 1000000

/-- Core of `_get_speed_limit_mph`: a speed limit reported by the map in km/h
is multiplied by `kph2mph` (the attribute-missing case returns `None` before
this multiplication happens). -/
def get_speed_limit_mph (kph : ℚ) : ℚ := kph * kph2mph

/-- Constant `0.44704` used in `process_segment` to convert miles per hour to
meters per second. -/
def mph2mps : ℚ := 44704 / 100000

/-- Spatial filter of `process_segment`: the segment's precomputed center must
lie strictly within `mask_range * 1.1` of `(center_x, center_y)` in both axes.
-/
def inside (seg : LaneSegment) (centerX centerY maskRange : ℚ) : Prop :=
  seg.center.1 > centerX - maskRange * (11 / 10) ∧
  seg.center.1 < centerX + maskRange * (11 / 10) ∧
  seg.center.2 > centerY - maskRange * (11 / 10) ∧
  seg.center.2 < centerY + maskRange * (11 / 10)

instance (seg : LaneSegment) (cx cy mr : ℚ) : Decidable (inside seg cx cy mr) := by
  unfold inside; infer_instance

/-- Traffic-light one-hot encoding of `process_segment`, slot order
`(green, yellow, red, unknown)`.  The source starts from `[0, 0, 0, 0]`;
no associated regulatory element yields `unknown`; with at least one element
only the first is used (a warning is printed when there is more than one); an
id absent from the recognition mapping yields `unknown`; observed codes
1 (RED), 2 (AMBER), 3 (GREEN), 4 (WHITE) set the corresponding slot, and any
other code leaves the vector at `[0, 0, 0, 0]` (the if/elif chain falls
through). -/
def trafficLightVec (tls : List ℤ) (recognition : List (ℤ × ℤ)) : List ℚ :=
  match tls with
  | [] => [0, 0, 0, 1]
  | t :: _ =>
    match recognition.lookup t with
    | none => [0, 0, 0, 1]
    | some c =>
      if c = 1 then [0, 0, 1, 0]
      else if c = 2 then [0, 1, 0, 0]
      else if c = 3 then [1, 0, 0, 0]
      else if c = 4 then [0, 0, 0, 1]
      else [0, 0, 0, 0]

/-- One row of `line_data`: centerline xy, heading-delta xy, left-offset xy,
right-offset xy, then the four traffic-light channels. -/
def rowOf (p d l r : Vec3) (tl : List ℚ) : List ℚ :=
  [p.x, p.y, d.x, d.y, l.x, l.y, r.x, r.y] ++ tl

/-- The `line_data` array built by `process_segment`: centerline and both
boundaries are transformed into the ego frame, boundaries are re-expressed as
offsets from the same-index centerline point, the heading delta is the first
difference of the centerline with a zero row appended, and the traffic-light
vector is tiled across all rows. -/
def lineData (seg : LaneSegment) (m : Mat4) (recognition : List (ℤ × ℤ)) :
    List (List ℚ) :=
  let c := seg.waypoints.map (applyMat m)
  let lb := List.zipWith subV (seg.leftWaypoints.map (applyMat m)) c
  let rb := List.zipWith subV (seg.rightWaypoints.map (applyMat m)) c
  let dc := List.zipWith subV c.tail c ++ [⟨0, 0, 0⟩]
  let tl := trafficLightVec seg.trafficLights recognition
  List.zipWith (fun pd lr => rowOf pd.1 pd.2 lr.1 lr.2 tl) (c.zip dc) (lb.zip rb)

/-- Embedding of `process_segment`.  Returns `.ok none` when the segment is
cropped away, `.error` when the surviving segment's speed limit is `None`
(the source raises a `TypeError` at `segment.speed_limit_mph * 0.44704`), and
otherwise `.ok (some (line_data, speed_limit_mps))`. -/
def process_segment (seg : LaneSegment) (m : Mat4)
    (centerX centerY maskRange : ℚ) (recognition : List (ℤ × ℤ)) :
    Except String (Option (List (List ℚ) × ℚ)) :=
  if inside seg centerX centerY maskRange then
    match seg.speedLimitMph with
    | none => .error "TypeError: unsupported operand type for *: NoneType and float"
    | some mph => .ok (some (lineData seg m recognition, mph * mph2mps))
  else
    .ok none

/-- The survivor-collection loop of `create_lane_tensor`: `process_segment` is
called on every segment in order, `None` results are skipped, and a raised
error aborts the whole call. -/
def collectResults (segs : List LaneSegment) (m : Mat4)
    (centerX centerY maskRange : ℚ) (recognition : List (ℤ × ℤ)) :
    Except String (List (List (List ℚ) × ℚ)) :=
  match segs with
  | [] => .ok []
  | s :: rest =>
    match process_segment s m centerX centerY maskRange recognition with
    | .error e => .error e
    | .ok none => collectResults rest m centerX centerY maskRange recognition
    | .ok (some r) =>
      (collectResults rest m centerX centerY maskRange recognition).map (r :: ·)

/-- Squared norm of the first two channels of the first row of a result's
`line_data`; the source's sort key is `np.linalg.norm(tup[0][0, :2])`, whose
ordering coincides with the ordering of this squared key (see
`sortKeyLE_iff_sqrt_le`). -/
def keySq (res : List (List ℚ) × ℚ) : ℚ :=
  (res.1.headI.getD 0 0) ^ 2 + (res.1.headI.getD 1 0) ^ 2

/-- Comparison used to sort survivors: distance of the first ego-frame
centerline point from the origin. -/
def sortKeyLE (a b : List (List ℚ) × ℚ) : Prop := keySq a ≤ keySq b

instance : DecidableRel sortKeyLE := fun a b =>
  inferInstanceAs (Decidable (keySq a ≤ keySq b))

instance : IsTotal (List (List ℚ) × ℚ) sortKeyLE := ⟨fun a b => le_total _ _⟩

instance : IsTrans (List (List ℚ) × ℚ) sortKeyLE :=
  ⟨fun _ _ _ => le_trans⟩

/-- An all-zero 12-channel row of the packed tensor. -/
def zeroRow : List ℚ := List.replicate 12 0

/-- An all-zero lane entry (20 points of 12 zero channels). -/
def zeroLane : List (List ℚ) := List.replicate 20 zeroRow

/-- The sort-truncate-fill phase of `create_lane_tensor`: survivors are
sorted stably by distance of their first centerline point from the ego-frame
origin (`sorted` in Python is a stable sort, modelled by
`List.insertionSort`), truncated to `num_segments`, and written into the
zero-initialized tensors row by row; rows not written keep their zeros, and
the `has_speed_limit` flag of a written row is `speed_limit is not None`,
which is `true` for every written row. -/
def packTensors (numSegments : ℕ) (results : List (List (List ℚ) × ℚ)) :
    List (List (List ℚ)) × List ℚ × List Bool :=
  let kept := (List.insertionSort sortKeyLE results).take numSegments
  ((kept.map Prod.fst) ++ List.replicate (numSegments - kept.length) zeroLane,
   (kept.map Prod.snd) ++ List.replicate (numSegments - kept.length) 0,
   (kept.map fun _ => true) ++ List.replicate (numSegments - kept.length) false)

/-- Embedding of `create_lane_tensor`: collect the survivors in input order
(aborting on a raised error), then sort, truncate and pack them into the
fixed-capacity tensors. -/
def create_lane_tensor (segs : List LaneSegment) (m : Mat4)
    (centerX centerY maskRange : ℚ) (recognition : List (ℤ × ℤ))
    (numSegments : ℕ) :
    Except String (List (List (List ℚ)) × List ℚ × List Bool) :=
  (collectResults segs m centerX centerY maskRange recognition).map
    (packTensors numSegments)

/-! ### Part C: the partial-mask check of `visualize_inputs`
(`diffusion_planner/utils/visualize_input.py`). -/

/-- A point of a packed lane row counts as masked when the sum of the absolute
values of its leading 4 channels is below `1e-6`
(`np.sum(np.abs(lane_point[:4])) < 1e-6`). -/
def pointMasked (lanePoint : List ℚ) : Prop :=
  |lanePoint.getD 0 0| + |lanePoint.getD 1 0| + |lanePoint.getD 2 0| +
    |lanePoint.getD 3 0| < 1 / 1000000

instance (lanePoint : List ℚ) : Decidable (pointMasked lanePoint) := by
  unfold pointMasked; infer_instance

/-- Number of masked points of one packed lane row: in the route-lane loop of
`visualize_inputs`, `skipped` collects one boolean per point and
`num_skipped = sum(skipped)`. -/
def numSkipped (lane : List (List ℚ)) : ℕ :=
  (lane.map fun p => decide (pointMasked p)).count true

/-- The fatal condition of the route-lane loop: the row halts the program
(`print` followed by `exit(0)`) when `num_skipped != 0 and num_skipped != 20`.
-/
def routeRowHalts (lane : List (List ℚ)) : Prop :=
  numSkipped lane ≠ 0 ∧ numSkipped lane ≠ 20

instance (lane : List (List ℚ)) : Decidable (routeRowHalts lane) := by
  unfold routeRowHalts; infer_instance

/-- Whether `visualize_inputs` halts on its lane inputs: the lanes loop draws
rows point by point, skipping masked points, and performs no integrity check;
only the route-lane loop computes `num_skipped` per row and calls `exit(0)` on
a partially masked row. -/
def visualizeHalts (lanes routeLanes : List (List (List ℚ))) : Prop :=
  ∃ lane ∈ routeLanes, routeRowHalts lane

instance (lanes routeLanes : List (List (List ℚ))) :
    Decidable (visualizeHalts lanes routeLanes) := by
  unfold visualizeHalts; infer_instance

/-! ### Part A: the arc-length resampler `_interpolate_points` and the
fixed-point-count pass `_fix_point_num`, over real coordinates. -/

/-- Three-dimensional point with real coordinates, as handled by the
resampler (`shapely.LineString` built from an `(n, 3)` array). -/
@[ext]
structure Pt3 where
  x : ℝ
  y : ℝ
  z : ℝ

/-- Length of one polyline segment: the planar Euclidean distance between
consecutive points.  Shapely's `LineString.length` and `interpolate` measure
length in the (x, y) plane only — the z coordinate is carried along and
interpolated but contributes nothing to arc length. -/
noncomputable def segLen (p q : Pt3) : ℝ :=
  Real.sqrt ((q.x - p.x) ^ 2 + (q.y - p.y) ^ 2)

/-- Total arc length of a polyline (`line.length` of the `LineString`,
planar). -/
noncomputable def totalLen : List Pt3 → ℝ
  | p :: q :: rest => segLen p q + totalLen (q :: rest)
  | _ => 0

/-- A polyline has no vertical jump when every segment of zero planar length
joins two identical points: consecutive points sharing their (x, y)
coordinates also share z.  On such polylines the planar arc-length
parameterization of the `LineString` is unambiguous; a zero-planar-length
segment joining points that differ in z is collapsed by the planar measure
(see the C5 counterexample). -/
def noVerticalJump (pts : List Pt3) : Prop :=
  List.Chain' (fun p q => segLen p q = 0 → q = p) pts

/-- Linear interpolation between two points,
`p + t * (q - p)` componentwise. -/
noncomputable def lerp (p q : Pt3) (t : ℝ) : Pt3 :=
  ⟨p.x + t * (q.x - p.x), p.y + t * (q.y - p.y), p.z + t * (q.z - p.z)⟩

/-- Point at arc-length distance `d` along the polyline
(`line.interpolate(d)`): walk the segments, interpolating inside the segment
that contains `d`; a distance beyond the total length yields the last point.
On a segment of zero length the ratio `d / 0` is `0` in Lean, so the segment's
start point is produced, matching `interpolate` on a degenerate line. -/
noncomputable def interpolateAt : List Pt3 → ℝ → Pt3
  | [], _ => ⟨0, 0, 0⟩
  | [p], _ => p
  | p :: q :: rest, d =>
    if d ≤ segLen p q then lerp p q (d / segLen p q)
    else interpolateAt (q :: rest) (d - segLen p q)

/-- The sample distances `np.linspace(0, L, n)`: `n` evenly spaced values from
`0` to `L` inclusive (for `n = 1` numpy returns `[0]`). -/
noncomputable def linspace (len : ℝ) (n : ℕ) : List ℝ :=
  (List.range n).map fun (i : ℕ) =>
    if n ≤ 1 then 0 else len * (i : ℝ) / ((n : ℝ) - 1)

/-- Embedding of `_interpolate_points`: one interpolated point per sample
distance of `np.linspace(0, line.length, num_point)`. -/
noncomputable def interpolate_points (pts : List Pt3) (numPoint : ℕ) : List Pt3 :=
  (linspace (totalLen pts) numPoint).map (interpolateAt pts)

/-- A lane segment as seen by `_fix_point_num`: its centerline and the two
boundary polylines (the `Polyline` wrappers are flattened), plus the `center`
field that `_fix_point_num` fills in. -/
structure RawLaneSegment where
  centerline : List Pt3
  leftBoundary : List Pt3
  rightBoundary : List Pt3
  center : ℝ × ℝ

/-- Mean of the xy coordinates of a polyline
(`np.mean(centerlines[:, 0:2], axis=0)`). -/
noncomputable def meanXY (pts : List Pt3) : ℝ × ℝ :=
  ((pts.map Pt3.x).sum / pts.length, (pts.map Pt3.y).sum / pts.length)

/-- Embedding of the per-segment body of `_fix_point_num`: the three
polylines are resampled to exactly 20 points and `center` is set to the mean
of the pre-resampling centerline's xy coordinates (the source computes it from
the `centerlines` variable bound before the reassignment). -/
noncomputable def fix_point_num (seg : RawLaneSegment) : RawLaneSegment :=
  { centerline := interpolate_points seg.centerline 20
    leftBoundary := interpolate_points seg.leftBoundary 20
    rightBoundary := interpolate_points seg.rightBoundary 20
    center := meanXY seg.centerline }

/-- A 4-vector is one-hot when exactly one of its channels is 1 and the other
three are 0. -/
def isOneHot4 (v : List ℚ) : Prop :=
  v = [1, 0, 0, 0] ∨ v = [0, 1, 0, 0] ∨ v = [0, 0, 1, 0] ∨ v = [0, 0, 0, 1]

/-- Whether an embedded pipeline call completed without raising. -/
def exceptIsOk {α : Type} : Except String α → Bool
  | .ok _ => true
  | .error _ => false

/-! ## Helper lemmas -/

/-- Every element of a `zipWith` is an application of the combining
function. -/
theorem exists_of_mem_zipWith {α β γ : Type} {f : α → β → γ} {x : γ} :
    ∀ {l₁ : List α} {l₂ : List β}, x ∈ List.zipWith f l₁ l₂ → ∃ a b, x = f a b
  | [], _, h => by simp at h
  | _ :: _, [], h => by simp at h
  | a :: l₁, b :: l₂, h => by
    rcases List.mem_cons.1 h with h | h
    · exact ⟨a, b, h⟩
    · exact exists_of_mem_zipWith h

/-- The last four channels of every `line_data` row are the segment's
traffic-light vector. -/
theorem lineData_row_drop8 (seg : LaneSegment) (m : Mat4)
    (recognition : List (ℤ × ℤ)) :
    ∀ row ∈ lineData seg m recognition,
      row.drop 8 = trafficLightVec seg.trafficLights recognition := by
  intro row hrow
  obtain ⟨a, b, rfl⟩ := exists_of_mem_zipWith hrow
  rfl

/-! ## C3: one-hot traffic-light encoding -/

/-- C3: for every lane segment and every recognition mapping whose observed
codes lie in the closed enumeration {1, 2, 3, 4}, the encoded traffic-light
vector is one-hot and identical across all resampled points of the lane;
zero associated elements yield unknown, more than one associated element uses
only the first, an id absent from the mapping yields unknown, and a present
code selects its slot. -/
theorem c3_traffic_light_one_hot
    (tls : List ℤ) (recognition : List (ℤ × ℤ))
    (hcodes : ∀ p ∈ recognition, p.2 = 1 ∨ p.2 = 2 ∨ p.2 = 3 ∨ p.2 = 4) :
    isOneHot4 (trafficLightVec tls recognition) ∧
    (tls = [] → trafficLightVec tls recognition = [0, 0, 0, 1]) ∧
    (∀ t rest, tls = t :: rest → recognition.lookup t = none →
      trafficLightVec tls recognition = [0, 0, 0, 1]) ∧
    (∀ t rest c, tls = t :: rest → recognition.lookup t = some c →
      (c = 1 → trafficLightVec tls recognition = [0, 0, 1, 0]) ∧
      (c = 2 → trafficLightVec tls recognition = [0, 1, 0, 0]) ∧
      (c = 3 → trafficLightVec tls recognition = [1, 0, 0, 0]) ∧
      (c = 4 → trafficLightVec tls recognition = [0, 0, 0, 1])) ∧
    (∀ t1 t2 rest, trafficLightVec (t1 :: t2 :: rest) recognition =
      trafficLightVec [t1] recognition) ∧
    (∀ seg : LaneSegment, ∀ m : Mat4, seg.trafficLights = tls →
      ∀ row ∈ lineData seg m recognition,
        row.drop 8 = trafficLightVec tls recognition) := by
  refine ⟨?_, ?_, ?_, ?_, ?_, ?_⟩
  · -- one-hot
    match tls with
    | [] => exact Or.inr (Or.inr (Or.inr rfl))
    | t :: rest =>
      cases hl : recognition.lookup t with
      | none =>
        simp only [trafficLightVec, hl]
        exact Or.inr (Or.inr (Or.inr rfl))
      | some c =>
        have hmem : (t, c) ∈ recognition := by
          obtain ⟨l₁, l₂, rfl, -⟩ := List.lookup_eq_some_iff.1 hl
          exact List.mem_append.2 (Or.inr (List.mem_cons_self _ _))
        rcases hcodes _ hmem with hc | hc | hc | hc <;>
          simp_all [trafficLightVec, isOneHot4]
  · intro h; subst h; rfl
  · intro t rest h hl; subst h; simp [trafficLightVec, hl]
  · intro t rest c h hl; subst h
    refine ⟨?_, ?_, ?_, ?_⟩ <;> intro hc <;> subst hc <;>
      simp [trafficLightVec, hl]
  · intro t1 t2 rest; rfl
  · intro seg m hseg row hrow
    rw [← hseg]
    exact lineData_row_drop8 seg m recognition row hrow

/-- Witness for C3 at a concrete input: recognition mapping `{3 ↦ 2}` (amber)
and a lane with the single associated light `3`. -/
theorem c3_traffic_light_one_hot_witness :
    (∀ p ∈ [((3 : ℤ), (2 : ℤ))], p.2 = 1 ∨ p.2 = 2 ∨ p.2 = 3 ∨ p.2 = 4) ∧
    isOneHot4 (trafficLightVec [3] [((3 : ℤ), (2 : ℤ))]) :=
  ⟨by decide, (c3_traffic_light_one_hot [3] [(3, 2)] (by decide)).1⟩

/-! ## C4: behaviour on an observed code outside the closed enumeration -/

/-- C4 counterexample: with an associated light whose observed code is 9
(outside {1, 2, 3, 4}), the encoder leaves the vector all-zero and the whole
`create_lane_tensor` call completes without raising any error, refuting the
claim that an out-of-enumeration code is surfaced as a hard error. -/
theorem c4_counterexample :
    trafficLightVec [5] [((5 : ℤ), (9 : ℤ))] = [0, 0, 0, 0] ∧
    exceptIsOk (create_lane_tensor
      [⟨0, [⟨0, 0, 0⟩], [⟨0, 0, 0⟩], [⟨0, 0, 0⟩], (0, 1), some 1, [5]⟩]
      (fun i j => if i = j then 1 else 0) 0 0 10 [(5, 9)] 1) = true := by
  have hin : inside ⟨0, [⟨0, 0, 0⟩], [⟨0, 0, 0⟩], [⟨0, 0, 0⟩], (0, 1), some 1, [5]⟩
      0 0 10 := by norm_num [inside]
  refine ⟨rfl, ?_⟩
  simp [create_lane_tensor, collectResults, process_segment, hin, Except.map,
    exceptIsOk]

/-- C4 (amended): if the first associated traffic light's observed code lies
outside the closed enumeration, the if/elif chain of `process_segment` falls
through silently: the traffic-light vector keeps all four channels at 0 (it is
not one-hot and not the unknown default), no error is raised, and the segment
is still emitted. -/
theorem c4_unrecognized_code_silent
    (t : ℤ) (rest : List ℤ) (recognition : List (ℤ × ℤ)) (c : ℤ)
    (hl : recognition.lookup t = some c)
    (h1 : c ≠ 1) (h2 : c ≠ 2) (h3 : c ≠ 3) (h4 : c ≠ 4) :
    trafficLightVec (t :: rest) recognition = [0, 0, 0, 0] ∧
    (∀ (seg : LaneSegment) (m : Mat4) (cx cy mr v : ℚ),
      seg.speedLimitMph = some v → inside seg cx cy mr →
      process_segment seg m cx cy mr recognition =
        .ok (some (lineData seg m recognition, v * mph2mps))) := by
  constructor
  · simp [trafficLightVec, hl, h1, h2, h3, h4]
  · intro seg m cx cy mr v hsl hin
    simp [process_segment, hin, hsl]

/-- Witness for the amended C4 at the concrete code 9. -/
theorem c4_unrecognized_code_silent_witness :
    List.lookup (5 : ℤ) [((5 : ℤ), (9 : ℤ))] = some 9 ∧
    trafficLightVec [(5 : ℤ)] [((5 : ℤ), (9 : ℤ))] = [0, 0, 0, 0] :=
  ⟨by decide,
    (c4_unrecognized_code_silent 5 [] [(5, 9)] 9 (by decide) (by decide)
      (by decide) (by decide) (by decide)).1⟩

/-! ## C7: a surviving segment without a speed limit is fatal -/

/-- The survivor-collection loop aborts with an error as soon as some segment
survives filtering with an undefined speed limit. -/
theorem collectResults_error_of_missing_speed_limit
    (segs : List LaneSegment) (m : Mat4) (cx cy mr : ℚ)
    (recognition : List (ℤ × ℤ))
    (s : LaneSegment) (hs : s ∈ segs) (hin : inside s cx cy mr)
    (hnone : s.speedLimitMph = none) :
    ∃ e, collectResults segs m cx cy mr recognition = .error e := by
  induction segs with
  | nil => cases hs
  | cons a rest ih =>
    rcases List.mem_cons.1 hs with rfl | hs
    · exact ⟨"TypeError: unsupported operand type for *: NoneType and float",
        by simp [collectResults, process_segment, hin, hnone]⟩
    · obtain ⟨e, he⟩ := ih hs
      cases hp : process_segment a m cx cy mr recognition with
      | error e' => exact ⟨e', by simp [collectResults, hp]⟩
      | ok o =>
        cases o with
        | none => exact ⟨e, by simp [collectResults, hp, he]⟩
        | some r => exact ⟨e, by simp [collectResults, hp, he, Except.map]⟩

/-- C7: if a lane segment survives spatial filtering but its speed limit is
undefined, the pipeline fails fatally: `process_segment` raises on
`segment.speed_limit_mph * 0.44704` and the whole `create_lane_tensor` call
aborts with an error instead of emitting the segment with a padded or default
speed limit. -/
theorem c7_missing_speed_limit_fatal
    (segs : List LaneSegment) (m : Mat4) (cx cy mr : ℚ)
    (recognition : List (ℤ × ℤ)) (numSegments : ℕ)
    (s : LaneSegment) (hs : s ∈ segs) (hin : inside s cx cy mr)
    (hnone : s.speedLimitMph = none) :
    process_segment s m cx cy mr recognition =
      .error "TypeError: unsupported operand type for *: NoneType and float" ∧
    ∃ e, create_lane_tensor segs m cx cy mr recognition numSegments =
      .error e := by
  constructor
  · simp [process_segment, hin, hnone]
  · obtain ⟨e, he⟩ :=
      collectResults_error_of_missing_speed_limit segs m cx cy mr recognition
        s hs hin hnone
    exact ⟨e, by simp [create_lane_tensor, he, Except.map]⟩

/-- Witness for C7: one concrete in-range segment with `speed_limit = None`
makes the pipeline abort. -/
theorem c7_missing_speed_limit_fatal_witness :
    (⟨0, [⟨0, 0, 0⟩], [⟨0, 0, 0⟩], [⟨0, 0, 0⟩], (0, 1), none, []⟩ : LaneSegment) ∈
      [(⟨0, [⟨0, 0, 0⟩], [⟨0, 0, 0⟩], [⟨0, 0, 0⟩], (0, 1), none, []⟩ : LaneSegment)] ∧
    inside ⟨0, [⟨0, 0, 0⟩], [⟨0, 0, 0⟩], [⟨0, 0, 0⟩], (0, 1), none, []⟩ 0 0 10 ∧
    exceptIsOk (create_lane_tensor
      [(⟨0, [⟨0, 0, 0⟩], [⟨0, 0, 0⟩], [⟨0, 0, 0⟩], (0, 1), none, []⟩ : LaneSegment)]
      (fun i j => if i = j then 1 else 0) 0 0 10 [] 3) = false := by
  refine ⟨List.mem_cons_self _ _, by norm_num [inside], ?_⟩
  obtain ⟨e, he⟩ :=
    (c7_missing_speed_limit_fatal
      [(⟨0, [⟨0, 0, 0⟩], [⟨0, 0, 0⟩], [⟨0, 0, 0⟩], (0, 1), none, []⟩ : LaneSegment)]
      (fun i j => if i = j then 1 else 0) 0 0 10 [] 3
      ⟨0, [⟨0, 0, 0⟩], [⟨0, 0, 0⟩], [⟨0, 0, 0⟩], (0, 1), none, []⟩
      (List.mem_cons_self _ _) (by norm_num [inside]) rfl).2
  rw [he]
  rfl

/-! ## C9: unit conversion of the speed limit -/

/-- C9 counterexample: a source speed limit of 36 km/h should become exactly
10 m/s under the claimed v/3.6 conversion, but the pipeline emits
`36 * 0.621371 * 0.44704`, which differs from 10.  The emitted value is the
one `process_segment` returns for such a lane. -/
theorem c9_counterexample :
    get_speed_limit_mph 36 * mph2mps ≠ 36 / (18 / 5) ∧
    process_segment
      ⟨0, [⟨0, 0, 0⟩], [⟨0, 0, 0⟩], [⟨0, 0, 0⟩], (0, 1), some (get_speed_limit_mph 36), []⟩
      (fun i j => if i = j then 1 else 0) 0 0 10 [] =
      .ok (some (lineData
        ⟨0, [⟨0, 0, 0⟩], [⟨0, 0, 0⟩], [⟨0, 0, 0⟩], (0, 1), some (get_speed_limit_mph 36), []⟩
        (fun i j => if i = j then 1 else 0) [], get_speed_limit_mph 36 * mph2mps)) := by
  constructor
  · norm_num [get_speed_limit_mph, kph2mph, mph2mps]
  · have hin : inside
        ⟨0, [⟨0, 0, 0⟩], [⟨0, 0, 0⟩], [⟨0, 0, 0⟩], (0, 1), some (get_speed_limit_mph 36), []⟩
        0 0 10 := by norm_num [inside]
    simp [process_segment, hin]

/-- C9 (amended): a source speed limit of `v` km/h is emitted as
`v * 0.621371 * 0.44704` m/s — the exact rational
`v * 27777769184 / 100000000000` — which approximates `v / 3.6` to within
`v * 1e-7` (relative error about 3.1e-7) but is not equal to it. -/
theorem c9_speed_limit_conversion (v : ℚ) :
    get_speed_limit_mph v * mph2mps = v * (27777769184 / 100000000000) ∧
    (0 ≤ v → |get_speed_limit_mph v * mph2mps - v / (18 / 5)| ≤ v / 10000000) ∧
    (∀ (seg : LaneSegment) (m : Mat4) (cx cy mr : ℚ)
      (recognition : List (ℤ × ℤ)),
      seg.speedLimitMph = some (get_speed_limit_mph v) →
      inside seg cx cy mr →
      process_segment seg m cx cy mr recognition =
        .ok (some (lineData seg m recognition,
          get_speed_limit_mph v * mph2mps))) := by
  refine ⟨?_, ?_, ?_⟩
  · unfold get_speed_limit_mph kph2mph mph2mps; ring
  · intro hv
    have h1 : get_speed_limit_mph v * mph2mps - v / (18 / 5) =
        v * (-(154688 / 1800000000000)) := by
      unfold get_speed_limit_mph kph2mph mph2mps; ring
    rw [h1, abs_mul, abs_of_nonneg hv]
    have h2 : |(-(154688 / 1800000000000) : ℚ)| = 154688 / 1800000000000 := by
      rw [abs_neg, abs_of_nonneg] <;> norm_num
    rw [h2, div_eq_mul_inv v]
    exact mul_le_mul_of_nonneg_left (by norm_num) hv
  · intro seg m cx cy mr recognition hsl hin
    simp [process_segment, hin, hsl]

/-- Witness for the amended C9 at `v = 36` km/h. -/
theorem c9_speed_limit_conversion_witness :
    (0 : ℚ) ≤ 36 ∧
    |get_speed_limit_mph 36 * mph2mps - 36 / (18 / 5)| ≤ 36 / 10000000 :=
  ⟨by norm_num, (c9_speed_limit_conversion 36).2.1 (by norm_num)⟩

/-! ## C8: the partial-mask integrity check -/

/-- Counting `true` in a list of mapped booleans is counting the satisfying
elements. -/
theorem count_true_map {α : Type} (f : α → Bool) :
    ∀ l : List α, (l.map f).count true = l.countP f
  | [] => rfl
  | a :: l => by
    simp only [List.map_cons, List.count_cons, List.countP_cons,
      count_true_map f l]
    cases h : f a <;> simp [h]

/-- The 20-point row whose first point is masked and whose other 19 points
are unmasked is partially masked by the code's criterion. -/
theorem mixedRow_halts :
    routeRowHalts ([0, 0, 0, 0] :: List.replicate 19 [1, 0, 0, 0]) := by
  have hmask : pointMasked [0, 0, 0, 0] := by norm_num [pointMasked]
  have hnot : ¬ pointMasked [1, 0, 0, 0] := by norm_num [pointMasked]
  have hone : numSkipped ([0, 0, 0, 0] :: List.replicate 19 [1, 0, 0, 0]) = 1 := by
    unfold numSkipped
    rw [count_true_map, List.countP_cons]
    have h19 : List.countP (fun p => decide (pointMasked p))
        (List.replicate 19 [(1 : ℚ), 0, 0, 0]) = 0 := by
      rw [List.countP_eq_zero]
      intro a ha
      rw [List.eq_of_mem_replicate ha]
      simp only [decide_eq_true_eq]
      exact hnot
    simp [h19, hmask, hnot]
  unfold routeRowHalts
  rw [hone]
  exact ⟨one_ne_zero, by norm_num⟩

/-- C8 counterexample: a 20-point lane row whose first point is masked and
whose other 19 points are not is partially masked by the code's own criterion
(`routeRowHalts` holds for it), yet when it occurs among the `lanes` rows the
visualization completes without halting: the `num_skipped` check exists only
in the route-lanes loop. -/
theorem c8_counterexample :
    routeRowHalts ([0, 0, 0, 0] :: List.replicate 19 [1, 0, 0, 0]) ∧
    ¬ visualizeHalts [[0, 0, 0, 0] :: List.replicate 19 [1, 0, 0, 0]] [] := by
  refine ⟨mixedRow_halts, ?_⟩
  intro h
  obtain ⟨lane, hlane, -⟩ := h
  cases hlane

/-- C8 (amended): the fully-present-or-fully-masked integrity check applies
only to route-lane rows.  For a 20-point row among the route lanes, a mix of
masked and unmasked points triggers the fatal halt (`exit(0)`), while a fully
masked or fully unmasked row does not; rows of the ordinary `lanes` tensor are
never checked — the halting behaviour is independent of the `lanes` argument.
-/
theorem c8_mixed_mask_route_only
    (lanes routeLanes : List (List (List ℚ))) (lane : List (List ℚ))
    (hmem : lane ∈ routeLanes) (hlen : lane.length = 20) :
    (routeRowHalts lane → visualizeHalts lanes routeLanes) ∧
    ((∃ p ∈ lane, pointMasked p) → (∃ q ∈ lane, ¬ pointMasked q) →
      routeRowHalts lane) ∧
    ((∀ p ∈ lane, pointMasked p) → ¬ routeRowHalts lane) ∧
    ((∀ p ∈ lane, ¬ pointMasked p) → ¬ routeRowHalts lane) ∧
    (∀ lanes' : List (List (List ℚ)),
      visualizeHalts lanes routeLanes ↔ visualizeHalts lanes' routeLanes) := by
  have hnum : numSkipped lane = lane.countP fun p => decide (pointMasked p) :=
    count_true_map _ lane
  refine ⟨fun h => ⟨lane, hmem, h⟩, ?_, ?_, ?_, fun _ => Iff.rfl⟩
  · rintro ⟨p, hp, hpm⟩ ⟨q, hq, hqm⟩
    constructor
    · rw [hnum]
      intro h0
      rw [List.countP_eq_zero] at h0
      exact h0 p hp (by simpa using hpm)
    · rw [hnum, ← hlen]
      intro hall
      rw [List.countP_eq_length] at hall
      exact hqm (by simpa using hall q hq)
  · intro hall ⟨h0, h20⟩
    apply h20
    rw [hnum, ← hlen, List.countP_eq_length]
    intro a ha
    simpa using hall a ha
  · intro hnone ⟨h0, h20⟩
    apply h0
    rw [hnum, List.countP_eq_zero]
    intro a ha
    simpa using hnone a ha

/-- Witness for the amended C8: the partially masked 20-point row among the
route lanes makes the visualization halt. -/
theorem c8_mixed_mask_route_only_witness :
    routeRowHalts ([0, 0, 0, 0] :: List.replicate 19 [1, 0, 0, 0]) ∧
    visualizeHalts [] [[0, 0, 0, 0] :: List.replicate 19 [1, 0, 0, 0]] :=
  ⟨mixedRow_halts,
    (c8_mixed_mask_route_only [] _ _ (List.mem_cons_self _ _)
      (by simp)).1 mixedRow_halts⟩

/-! ## Inversion lemmas for the collection loop -/

/-- A `None` result of `process_segment` means the segment was cropped
away. -/
theorem process_segment_ok_none
    {seg : LaneSegment} {m : Mat4} {cx cy mr : ℚ} {recognition : List (ℤ × ℤ)}
    (h : process_segment seg m cx cy mr recognition = .ok none) :
    ¬ inside seg cx cy mr := by
  intro hin
  unfold process_segment at h
  rw [if_pos hin] at h
  cases hsl : seg.speedLimitMph <;> rw [hsl] at h <;> cases h

/-- A `some` result of `process_segment` comes from a surviving segment with
a present speed limit and carries its `line_data` and converted speed. -/
theorem process_segment_ok_some
    {seg : LaneSegment} {m : Mat4} {cx cy mr : ℚ} {recognition : List (ℤ × ℤ)}
    {r : List (List ℚ) × ℚ}
    (h : process_segment seg m cx cy mr recognition = .ok (some r)) :
    inside seg cx cy mr ∧ ∃ v, seg.speedLimitMph = some v ∧
      r = (lineData seg m recognition, v * mph2mps) := by
  unfold process_segment at h
  by_cases hin : inside seg cx cy mr
  · rw [if_pos hin] at h
    cases hsl : seg.speedLimitMph with
    | none => rw [hsl] at h; cases h
    | some v =>
      rw [hsl] at h
      refine ⟨hin, v, rfl, ?_⟩
      cases h
      rfl
  · rw [if_neg hin] at h
    cases h

/-- The number of collected survivors equals the number of segments passing
the spatial filter. -/
theorem collectResults_ok_length
    {segs : List LaneSegment} {m : Mat4} {cx cy mr : ℚ}
    {recognition : List (ℤ × ℤ)} {results : List (List (List ℚ) × ℚ)}
    (hok : collectResults segs m cx cy mr recognition = .ok results) :
    results.length = segs.countP fun s => decide (inside s cx cy mr) := by
  induction segs generalizing results with
  | nil =>
    simp only [collectResults] at hok
    cases hok
    rfl
  | cons a rest ih =>
    rw [List.countP_cons]
    cases hp : process_segment a m cx cy mr recognition with
    | error e => simp [collectResults, hp] at hok
    | ok o =>
      cases o with
      | none =>
        simp only [collectResults, hp] at hok
        have hnot : ¬ inside a cx cy mr := process_segment_ok_none hp
        simp [ih hok, hnot]
      | some r =>
        simp only [collectResults, hp] at hok
        cases hrest : collectResults rest m cx cy mr recognition with
        | error e => rw [hrest] at hok; cases hok
        | ok results' =>
          rw [hrest] at hok
          cases hok
          have hin : inside a cx cy mr := (process_segment_ok_some hp).1
          simp [ih hrest, hin]

/-- Every collected survivor is the processed image of some in-range segment
with a present speed limit. -/
theorem collectResults_ok_mem
    {segs : List LaneSegment} {m : Mat4} {cx cy mr : ℚ}
    {recognition : List (ℤ × ℤ)} {results : List (List (List ℚ) × ℚ)}
    (hok : collectResults segs m cx cy mr recognition = .ok results) :
    ∀ r ∈ results, ∃ s ∈ segs, inside s cx cy mr ∧ ∃ v,
      s.speedLimitMph = some v ∧ r = (lineData s m recognition, v * mph2mps) := by
  induction segs generalizing results with
  | nil =>
    simp only [collectResults] at hok
    cases hok
    intro r hr
    cases hr
  | cons a rest ih =>
    cases hp : process_segment a m cx cy mr recognition with
    | error e => simp [collectResults, hp] at hok
    | ok o =>
      cases o with
      | none =>
        simp only [collectResults, hp] at hok
        intro r hr
        obtain ⟨s, hs, h⟩ := ih hok r hr
        exact ⟨s, List.mem_cons_of_mem a hs, h⟩
      | some r0 =>
        simp only [collectResults, hp] at hok
        cases hrest : collectResults rest m cx cy mr recognition with
        | error e => rw [hrest] at hok; cases hok
        | ok results' =>
          rw [hrest] at hok
          cases hok
          intro r hr
          rcases List.mem_cons.1 hr with rfl | hr
          · obtain ⟨hin, v, hv, hr0⟩ := process_segment_ok_some hp
            exact ⟨a, List.mem_cons_self _ _, hin, v, hv, hr0⟩
          · obtain ⟨s, hs, h⟩ := ih hrest r hr
            exact ⟨s, List.mem_cons_of_mem a hs, h⟩

/-- When the collection loop completes without error, every surviving segment
had a present speed limit. -/
theorem collectResults_ok_speed_present
    {segs : List LaneSegment} {m : Mat4} {cx cy mr : ℚ}
    {recognition : List (ℤ × ℤ)} {results : List (List (List ℚ) × ℚ)}
    (hok : collectResults segs m cx cy mr recognition = .ok results) :
    ∀ s ∈ segs, inside s cx cy mr → s.speedLimitMph ≠ none := by
  intro s hs hin hnone
  obtain ⟨e, he⟩ :=
    collectResults_error_of_missing_speed_limit segs m cx cy mr recognition
      s hs hin hnone
  rw [hok] at he
  cases he

/-- Reading a `replicate` with `getD`, defaulting to the replicated element, always gives that element. -/
theorem getD_replicate_self {α : Type} :
    ∀ (n i : ℕ) (a : α), (List.replicate n a).getD i a = a
  | 0, _, _ => rfl
  | _ + 1, 0, _ => rfl
  | n + 1, i + 1, a => getD_replicate_self n i a

/-- Reading a `replicate` with `getD` below its length returns the replicated
element. -/
theorem getD_replicate_of_lt {α : Type} :
    ∀ {n i : ℕ}, i < n → ∀ (a d : α), (List.replicate n a).getD i d = a
  | _ + 1, 0, _, _, _ => rfl
  | n + 1, i + 1, h, a, d =>
    getD_replicate_of_lt (Nat.lt_of_succ_lt_succ h) a d

/-! ## Shape lemmas for the packed tensors -/

/-- The traffic-light vector always has exactly 4 channels. -/
theorem trafficLightVec_length (tls : List ℤ) (recognition : List (ℤ × ℤ)) :
    (trafficLightVec tls recognition).length = 4 := by
  unfold trafficLightVec
  split
  · rfl
  split
  · rfl
  split_ifs <;> rfl

/-- With 20-point polylines, `line_data` has 20 rows of 12 channels. -/
theorem lineData_shape (seg : LaneSegment) (m : Mat4)
    (recognition : List (ℤ × ℤ))
    (hc : seg.waypoints.length = 20) (hl : seg.leftWaypoints.length = 20)
    (hr : seg.rightWaypoints.length = 20) :
    (lineData seg m recognition).length = 20 ∧
    ∀ row ∈ lineData seg m recognition, row.length = 12 := by
  constructor
  · simp [lineData, List.length_zipWith, List.length_zip, List.length_tail,
      hc, hl, hr]
  · intro row hrow
    obtain ⟨a, b, rfl⟩ := exists_of_mem_zipWith hrow
    simp [rowOf, trafficLightVec_length]

/-- All three packed tensors have exactly `numSegments` rows. -/
theorem packTensors_lengths (numSegments : ℕ)
    (results : List (List (List ℚ) × ℚ)) :
    (packTensors numSegments results).1.length = numSegments ∧
    (packTensors numSegments results).2.1.length = numSegments ∧
    (packTensors numSegments results).2.2.length = numSegments := by
  unfold packTensors
  simp only [List.length_append, List.length_map, List.length_replicate,
    List.length_take, List.length_insertionSort]
  omega

/-- Beyond the surviving rows, all three packed tensors hold their padding
values. -/
theorem packTensors_padding (numSegments : ℕ)
    (results : List (List (List ℚ) × ℚ)) (i : ℕ)
    (hi : results.length ≤ i) :
    (packTensors numSegments results).1.getD i zeroLane = zeroLane ∧
    (packTensors numSegments results).2.1.getD i 0 = 0 ∧
    (packTensors numSegments results).2.2.getD i false = false := by
  have hkept : ((List.insertionSort sortKeyLE results).take numSegments).length ≤ i := by
    simp only [List.length_take, List.length_insertionSort]
    omega
  unfold packTensors
  refine ⟨?_, ?_, ?_⟩ <;>
    rw [List.getD_append_right _ _ _ _ (by simpa using hkept)] <;>
    exact getD_replicate_self _ _ _

/-- Packing an empty survivor list yields all-zero tensors with all flags
`false`. -/
theorem packTensors_nil (numSegments : ℕ) :
    packTensors numSegments [] =
      (List.replicate numSegments zeroLane, List.replicate numSegments 0,
       List.replicate numSegments false) := by
  simp [packTensors]

/-- C1: on a successful call, `create_lane_tensor` returns tensors with
exactly `num_segments` rows regardless of the number of survivors (with
20-point segments each lane row is a 20 x 12 block); every row at an index at
or beyond the survivor count is all-zero with a zero speed limit and a
`false` flag; and with zero survivors the whole output is zero-padding with
every flag `false`. -/
theorem c1_fixed_capacity_padding
    (segs : List LaneSegment) (m : Mat4) (cx cy mr : ℚ)
    (recognition : List (ℤ × ℤ)) (numSegments : ℕ)
    (T : List (List (List ℚ))) (S : List ℚ) (F : List Bool)
    (hok : create_lane_tensor segs m cx cy mr recognition numSegments =
      .ok (T, S, F)) :
    T.length = numSegments ∧ S.length = numSegments ∧ F.length = numSegments ∧
    ((∀ s ∈ segs, s.waypoints.length = 20 ∧ s.leftWaypoints.length = 20 ∧
        s.rightWaypoints.length = 20) →
      ∀ lane ∈ T, lane.length = 20 ∧ ∀ row ∈ lane, row.length = 12) ∧
    (∀ i, (segs.countP fun s => decide (inside s cx cy mr)) ≤ i →
      T.getD i zeroLane = zeroLane ∧ S.getD i 0 = 0 ∧
      F.getD i false = false) ∧
    ((segs.countP fun s => decide (inside s cx cy mr)) = 0 →
      T = List.replicate numSegments zeroLane ∧
      S = List.replicate numSegments 0 ∧
      F = List.replicate numSegments false) := by
  unfold create_lane_tensor at hok
  cases hres : collectResults segs m cx cy mr recognition with
  | error e => rw [hres] at hok; cases hok
  | ok results =>
    rw [hres] at hok
    cases hok
    have hlen := collectResults_ok_length hres
    have hL := packTensors_lengths numSegments results
    refine ⟨hL.1, hL.2.1, hL.2.2, ?_, ?_, ?_⟩
    · -- row shapes
      intro hsegs lane hlane
      rcases List.mem_append.1 hlane with hlane | hlane
      · obtain ⟨r, hr, rfl⟩ := List.mem_map.1 hlane
        have hr' : r ∈ results := by
          have := List.mem_of_mem_take hr
          exact (List.mem_insertionSort sortKeyLE).1 this
        obtain ⟨s, hs, _, v, _, hrEq⟩ := collectResults_ok_mem hres r hr'
        obtain ⟨h1, h2, h3⟩ := hsegs s hs
        have := lineData_shape s m recognition h1 h2 h3
        rw [hrEq]
        exact this
      · have : lane = zeroLane := List.eq_of_mem_replicate hlane
        subst this
        constructor
        · rfl
        · intro row hrow
          have : row = zeroRow := List.eq_of_mem_replicate hrow
          subst this
          rfl
    · -- padding rows
      intro i hi
      rw [← hlen] at hi
      exact packTensors_padding numSegments results i hi
    · -- zero survivors
      intro h0
      rw [← hlen] at h0
      have : results = [] := List.length_eq_zero.1 h0
      subst this
      simp

/-- Witness for C1: a map with zero surviving segments and capacity 2 yields
all-zero tensors with all flags `false`. -/
theorem c1_fixed_capacity_padding_witness :
    create_lane_tensor [] (fun _ _ => 0) 0 0 10 [] 2 =
      .ok (List.replicate 2 zeroLane, List.replicate 2 0,
        List.replicate 2 false) ∧
    List.replicate 2 zeroLane = List.replicate 2 zeroLane ∧
    List.replicate 2 (0 : ℚ) = List.replicate 2 0 ∧
    List.replicate 2 false = List.replicate 2 false :=
  ⟨rfl,
    (c1_fixed_capacity_padding [] (fun _ _ => 0) 0 0 10 [] 2 _ _ _ rfl).2.2.2.2.2
      rfl⟩

/-! ## C10: the has-speed-limit flag marks exactly the filled rows -/

/-- C10: on a successful call, the `has_speed_limit` flags are `true` on
exactly the filled rows (the first `min survivors capacity` rows) and `false`
only on padding rows; moreover success implies every surviving segment had a
present speed limit, so the packed output never represents a selected segment
with an absent one. -/
theorem c10_has_speed_limit_flags
    (segs : List LaneSegment) (m : Mat4) (cx cy mr : ℚ)
    (recognition : List (ℤ × ℤ)) (numSegments : ℕ)
    (T : List (List (List ℚ))) (S : List ℚ) (F : List Bool)
    (hok : create_lane_tensor segs m cx cy mr recognition numSegments =
      .ok (T, S, F)) :
    F = List.replicate
        (min (segs.countP fun s => decide (inside s cx cy mr)) numSegments) true ++
      List.replicate
        (numSegments -
          min (segs.countP fun s => decide (inside s cx cy mr)) numSegments) false ∧
    (∀ s ∈ segs, inside s cx cy mr → s.speedLimitMph ≠ none) ∧
    (∀ i, i < min (segs.countP fun s => decide (inside s cx cy mr)) numSegments →
      F.getD i false = true) ∧
    (∀ i, i < numSegments → F.getD i false = false →
      (segs.countP fun s => decide (inside s cx cy mr)) ≤ i) := by
  unfold create_lane_tensor at hok
  cases hres : collectResults segs m cx cy mr recognition with
  | error e => rw [hres] at hok; cases hok
  | ok results =>
    rw [hres] at hok
    have h2 : Except.ok (ε := String) (packTensors numSegments results) =
        .ok (T, S, F) := hok
    have hTSF := Except.ok.inj h2
    have hFdef : F = (packTensors numSegments results).2.2 := by
      rw [hTSF]
    have hlen := collectResults_ok_length hres
    have hF : F =
        List.replicate (min results.length numSegments) true ++
        List.replicate (numSegments - min results.length numSegments) false := by
      rw [hFdef]
      simp only [packTensors]
      rw [List.map_const']
      simp only [List.length_take, List.length_insertionSort]
      rw [Nat.min_comm]
    rw [hlen] at hF
    refine ⟨hF, collectResults_ok_speed_present hres, ?_, ?_⟩
    · intro i hi
      rw [hF, List.getD_append _ _ _ _ (by simpa using hi)]
      exact getD_replicate_of_lt hi _ _
    · intro i hiN hfalse
      by_contra hlt
      push_neg at hlt
      have hi : i < min (segs.countP fun s => decide (inside s cx cy mr))
          numSegments := lt_min hlt hiN
      rw [hF, List.getD_append _ _ _ _ (by simpa using hi),
        getD_replicate_of_lt hi] at hfalse
      cases hfalse

/-- Witness for C10: one surviving segment and capacity 2 gives flags
`[true, false]` — `true` on the filled row, `false` on the padding row. -/
theorem c10_has_speed_limit_flags_witness :
    create_lane_tensor
        [⟨0, [⟨3, 4, 5⟩], [⟨3, 4, 5⟩], [⟨3, 4, 5⟩], (0, 1), some 1, []⟩]
        (fun _ _ => 1) 0 0 10 [] 2 =
      .ok ([[[13, 13, 0, 0, 0, 0, 0, 0, 0, 0, 0, 1]], zeroLane],
        [mph2mps, 0], [true, false]) ∧
    [true, false] = List.replicate
        (min (List.countP (fun s => decide (inside s 0 0 10))
          [(⟨0, [⟨3, 4, 5⟩], [⟨3, 4, 5⟩], [⟨3, 4, 5⟩], (0, 1), some 1, []⟩ :
            LaneSegment)]) 2) true ++
      List.replicate
        (2 - min (List.countP (fun s => decide (inside s 0 0 10))
          [(⟨0, [⟨3, 4, 5⟩], [⟨3, 4, 5⟩], [⟨3, 4, 5⟩], (0, 1), some 1, []⟩ :
            LaneSegment)]) 2) false := by
  have hin : inside (⟨0, [⟨3, 4, 5⟩], [⟨3, 4, 5⟩], [⟨3, 4, 5⟩], (0, 1), some 1,
      []⟩ : LaneSegment) 0 0 10 := by norm_num [inside]
  have hok : create_lane_tensor
      [⟨0, [⟨3, 4, 5⟩], [⟨3, 4, 5⟩], [⟨3, 4, 5⟩], (0, 1), some 1, []⟩]
      (fun _ _ => 1) 0 0 10 [] 2 =
      .ok ([[[13, 13, 0, 0, 0, 0, 0, 0, 0, 0, 0, 1]], zeroLane],
        [mph2mps, 0], [true, false]) := by
    have hld : lineData
        (⟨0, [⟨3, 4, 5⟩], [⟨3, 4, 5⟩], [⟨3, 4, 5⟩], (0, 1), some 1, []⟩ :
          LaneSegment) (fun _ _ => 1) [] =
        [[13, 13, 0, 0, 0, 0, 0, 0, 0, 0, 0, 1]] := by
      simp only [lineData, applyMat, subV, rowOf, trafficLightVec,
        List.map_cons, List.map_nil, List.tail_cons, List.zipWith_nil_left,
        List.nil_append, List.zipWith_cons_cons, List.zipWith_nil_right,
        List.zip_cons_cons, List.zip_nil_right]
      norm_num
    simp [create_lane_tensor, collectResults, process_segment, hin, hld,
      packTensors, zeroLane, Except.map]
  constructor
  · exact hok
  · have := (c10_has_speed_limit_flags _ _ 0 0 10 [] 2 _ _ _ hok).1
    exact this

/-! ## C2: nearest-N selection, determinism and stability -/

/-- The squared sort key is nonnegative. -/
theorem keySq_nonneg (r : List (List ℚ) × ℚ) : 0 ≤ keySq r :=
  add_nonneg (sq_nonneg _) (sq_nonneg _)

/-- Comparing the squared keys is the same as comparing the Euclidean norms
`np.linalg.norm(tup[0][0, :2])` used as the Python sort key. -/
theorem sortKeyLE_iff_sqrt_le (a b : List (List ℚ) × ℚ) :
    sortKeyLE a b ↔
      Real.sqrt ((keySq a : ℚ) : ℝ) ≤ Real.sqrt ((keySq b : ℚ) : ℝ) := by
  unfold sortKeyLE
  rw [Real.sqrt_le_sqrt_iff (by exact_mod_cast keySq_nonneg b)]
  exact_mod_cast Iff.rfl

/-- Inserting an element into a list only touches the filtered-by-key slice
when the element carries that key, in which case it lands at its front:
the elements it jumps over all have strictly smaller keys. -/
theorem filter_orderedInsert_keyEq (c : ℚ) (a : List (List ℚ) × ℚ) :
    ∀ l : List (List (List ℚ) × ℚ),
      (List.orderedInsert sortKeyLE a l).filter (fun x => decide (keySq x = c)) =
        if keySq a = c then
          a :: l.filter (fun x => decide (keySq x = c))
        else l.filter (fun x => decide (keySq x = c))
  | [] => by by_cases h : keySq a = c <;> simp [h]
  | b :: l => by
    rw [List.orderedInsert]
    by_cases hab : sortKeyLE a b
    · by_cases h : keySq a = c <;> simp [hab, h, List.filter_cons]
    · have hblt : keySq b < keySq a := lt_of_not_le hab
      by_cases h : keySq a = c
      · have hb : ¬ (keySq b = c) := by rw [← h]; exact ne_of_lt hblt
        simp [hab, h, hb, List.filter_cons, filter_orderedInsert_keyEq c a l]
      · by_cases hb : keySq b = c <;>
          simp [hab, h, hb, List.filter_cons, filter_orderedInsert_keyEq c a l]

/-- Stability of the survivor sort: for every key value, the sorted list
restricted to the survivors at that exact distance is the original
input-order slice. -/
theorem filter_insertionSort_keyEq (c : ℚ) :
    ∀ l : List (List (List ℚ) × ℚ),
      (List.insertionSort sortKeyLE l).filter (fun x => decide (keySq x = c)) =
        l.filter (fun x => decide (keySq x = c))
  | [] => rfl
  | a :: l => by
    rw [List.insertionSort, filter_orderedInsert_keyEq]
    by_cases h : keySq a = c <;>
      simp [h, List.filter_cons, filter_insertionSort_keyEq c l]

/-- C2: on a successful call the selection ranks survivors by the Euclidean
distance from the ego-frame origin to the first centerline point: the kept
prefix is sorted by that distance, every kept row is at most as distant as
every dropped row, the sort is a permutation that is stable on equal
distances (original relative order preserved), the tensor rows are the kept
survivors in ranked order followed by zero padding, the result is
deterministic, and the ranking key of a survivor is exactly the squared norm
of its first transformed centerline point (not the centroid). -/
theorem c2_nearest_n_selection
    (segs : List LaneSegment) (m : Mat4) (cx cy mr : ℚ)
    (recognition : List (ℤ × ℤ)) (numSegments : ℕ)
    (results : List (List (List ℚ) × ℚ))
    (T : List (List (List ℚ))) (S : List ℚ) (F : List Bool)
    (hres : collectResults segs m cx cy mr recognition = .ok results)
    (hok : create_lane_tensor segs m cx cy mr recognition numSegments =
      .ok (T, S, F)) :
    ∀ sortedR, sortedR = List.insertionSort sortKeyLE results →
      sortedR.Perm results ∧
      List.Sorted (fun a b => Real.sqrt ((keySq a : ℚ) : ℝ) ≤
        Real.sqrt ((keySq b : ℚ) : ℝ)) (sortedR.take numSegments) ∧
      (∀ a ∈ sortedR.take numSegments, ∀ b ∈ sortedR.drop numSegments,
        Real.sqrt ((keySq a : ℚ) : ℝ) ≤ Real.sqrt ((keySq b : ℚ) : ℝ)) ∧
      (∀ c : ℚ, sortedR.filter (fun x => decide (keySq x = c)) =
        results.filter (fun x => decide (keySq x = c))) ∧
      T = (sortedR.take numSegments).map Prod.fst ++
        List.replicate (numSegments - (sortedR.take numSegments).length)
          zeroLane ∧
      (∀ T' S' F',
        create_lane_tensor segs m cx cy mr recognition numSegments =
          .ok (T', S', F') → T' = T ∧ S' = S ∧ F' = F) ∧
      (∀ (s : LaneSegment) (r : List (List ℚ) × ℚ) (p0 l0 r0 : Vec3)
        (ps ls rs : List Vec3),
        s.waypoints = p0 :: ps → s.leftWaypoints = l0 :: ls →
        s.rightWaypoints = r0 :: rs →
        process_segment s m cx cy mr recognition = .ok (some r) →
        keySq r = (applyMat m p0).x ^ 2 + (applyMat m p0).y ^ 2) := by
  intro sortedR hsR
  have hsorted : List.Sorted sortKeyLE sortedR := by
    rw [hsR]; exact List.sorted_insertionSort sortKeyLE results
  have hperm : sortedR.Perm results := by
    rw [hsR]; exact List.perm_insertionSort sortKeyLE results
  unfold create_lane_tensor at hok
  rw [hres] at hok
  have h2 : Except.ok (ε := String) (packTensors numSegments results) =
      .ok (T, S, F) := hok
  have hTSF := Except.ok.inj h2
  refine ⟨hperm, ?_, ?_, ?_, ?_, ?_, ?_⟩
  · -- sorted prefix, in Euclidean-distance terms
    have := List.Pairwise.sublist (List.take_sublist numSegments sortedR) hsorted
    exact this.imp fun h => (sortKeyLE_iff_sqrt_le _ _).1 h
  · -- kept rows are at most as distant as dropped rows
    intro a ha b hb
    have hsplit := hsorted
    rw [← List.take_append_drop numSegments sortedR] at hsplit
    have := (List.pairwise_append.1 hsplit).2.2 a ha b hb
    exact (sortKeyLE_iff_sqrt_le _ _).1 this
  · -- stability
    intro c
    rw [hsR]
    exact filter_insertionSort_keyEq c results
  · -- the tensor holds the kept rows in ranked order, then padding
    have hTdef : T = (packTensors numSegments results).1 := by rw [hTSF]
    rw [hTdef, hsR]
    simp only [packTensors]
  · -- determinism
    intro T' S' F' hok'
    unfold create_lane_tensor at hok'
    rw [hres] at hok'
    have h2' : Except.ok (ε := String) (packTensors numSegments results) =
        .ok (T', S', F') := hok'
    have h3 : (T, S, F) = (T', S', F') := hTSF ▸ Except.ok.inj h2'
    exact ⟨(congrArg (fun p => p.1) h3).symm,
      (congrArg (fun p => p.2.1) h3).symm,
      (congrArg (fun p => p.2.2) h3).symm⟩
  · -- the key is the squared distance to the first transformed point
    intro s r p0 l0 r0 ps ls rs hw hl hr hps
    obtain ⟨-, v, -, rfl⟩ := process_segment_ok_some hps
    cases ps with
    | nil =>
      simp [keySq, lineData, hw, hl, hr, rowOf, List.getD_cons_zero,
        List.getD_cons_succ]
    | cons p1 ps' =>
      simp [keySq, lineData, hw, hl, hr, rowOf, List.getD_cons_zero,
        List.getD_cons_succ]

/-- Witness for C2: two survivors at squared distances 338 and 0 in input
order are reordered nearest-first and truncated to capacity 1. -/
theorem c2_nearest_n_selection_witness :
    collectResults
        [⟨0, [⟨3, 4, 5⟩], [⟨3, 4, 5⟩], [⟨3, 4, 5⟩], (0, 1), some 1, []⟩,
         ⟨1, [⟨0, 0, -1⟩], [⟨0, 0, -1⟩], [⟨0, 0, -1⟩], (0, 1), some 2, []⟩]
        (fun _ _ => 1) 0 0 10 [] =
      .ok [([[13, 13, 0, 0, 0, 0, 0, 0, 0, 0, 0, 1]], mph2mps),
           ([[0, 0, 0, 0, 0, 0, 0, 0, 0, 0, 0, 1]], 2 * mph2mps)] ∧
    [[[0, 0, 0, 0, 0, 0, 0, 0, 0, 0, 0, 1]]] =
      ((List.insertionSort sortKeyLE
        [([[13, 13, 0, 0, 0, 0, 0, 0, 0, 0, 0, 1]], mph2mps),
         ([[0, 0, 0, 0, 0, 0, 0, 0, 0, 0, 0, 1]], 2 * mph2mps)]).take 1).map
          Prod.fst ++
      List.replicate (1 - ((List.insertionSort sortKeyLE
        [([[13, 13, 0, 0, 0, 0, 0, 0, 0, 0, 0, 1]], mph2mps),
         ([[0, 0, 0, 0, 0, 0, 0, 0, 0, 0, 0, 1]], 2 * mph2mps)]).take 1).length)
        zeroLane := by
  have hinA : inside (⟨0, [⟨3, 4, 5⟩], [⟨3, 4, 5⟩], [⟨3, 4, 5⟩], (0, 1),
      some 1, []⟩ : LaneSegment) 0 0 10 := by norm_num [inside]
  have hinB : inside (⟨1, [⟨0, 0, -1⟩], [⟨0, 0, -1⟩], [⟨0, 0, -1⟩], (0, 1),
      some 2, []⟩ : LaneSegment) 0 0 10 := by norm_num [inside]
  have hldA : lineData
      (⟨0, [⟨3, 4, 5⟩], [⟨3, 4, 5⟩], [⟨3, 4, 5⟩], (0, 1), some 1, []⟩ :
        LaneSegment) (fun _ _ => 1) [] =
      [[13, 13, 0, 0, 0, 0, 0, 0, 0, 0, 0, 1]] := by
    simp only [lineData, applyMat, subV, rowOf, trafficLightVec,
      List.map_cons, List.map_nil, List.tail_cons, List.zipWith_nil_left,
      List.nil_append, List.zipWith_cons_cons, List.zipWith_nil_right,
      List.zip_cons_cons, List.zip_nil_right]
    norm_num
  have hldB : lineData
      (⟨1, [⟨0, 0, -1⟩], [⟨0, 0, -1⟩], [⟨0, 0, -1⟩], (0, 1), some 2, []⟩ :
        LaneSegment) (fun _ _ => 1) [] =
      [[0, 0, 0, 0, 0, 0, 0, 0, 0, 0, 0, 1]] := by
    simp only [lineData, applyMat, subV, rowOf, trafficLightVec,
      List.map_cons, List.map_nil, List.tail_cons, List.zipWith_nil_left,
      List.nil_append, List.zipWith_cons_cons, List.zipWith_nil_right,
      List.zip_cons_cons, List.zip_nil_right]
    norm_num
  have hres : collectResults
      [⟨0, [⟨3, 4, 5⟩], [⟨3, 4, 5⟩], [⟨3, 4, 5⟩], (0, 1), some 1, []⟩,
       ⟨1, [⟨0, 0, -1⟩], [⟨0, 0, -1⟩], [⟨0, 0, -1⟩], (0, 1), some 2, []⟩]
      (fun _ _ => 1) 0 0 10 [] =
      .ok [([[13, 13, 0, 0, 0, 0, 0, 0, 0, 0, 0, 1]], mph2mps),
           ([[0, 0, 0, 0, 0, 0, 0, 0, 0, 0, 0, 1]], 2 * mph2mps)] := by
    simp [collectResults, process_segment, hinA, hinB, hldA, hldB, Except.map]
  have hns : ¬ sortKeyLE ([[13, 13, 0, 0, 0, 0, 0, 0, 0, 0, 0, 1]], mph2mps)
      (([[0, 0, 0, 0, 0, 0, 0, 0, 0, 0, 0, 1]], 2 * mph2mps) :
        List (List ℚ) × ℚ) := by
    norm_num [sortKeyLE, keySq]
  have hok : create_lane_tensor
      [⟨0, [⟨3, 4, 5⟩], [⟨3, 4, 5⟩], [⟨3, 4, 5⟩], (0, 1), some 1, []⟩,
       ⟨1, [⟨0, 0, -1⟩], [⟨0, 0, -1⟩], [⟨0, 0, -1⟩], (0, 1), some 2, []⟩]
      (fun _ _ => 1) 0 0 10 [] 1 =
      .ok ([[[0, 0, 0, 0, 0, 0, 0, 0, 0, 0, 0, 1]]],
        [2 * mph2mps], [true]) := by
    simp [create_lane_tensor, hres, packTensors, Except.map,
      List.insertionSort, List.orderedInsert, hns]
  refine ⟨hres, ?_⟩
  exact ((c2_nearest_n_selection _ _ 0 0 10 [] 1 _ _ _ _ hres hok) _
    rfl).2.2.2.2.1

/-! ## C5 and C6: the arc-length resampler -/

/-- Segment lengths are nonnegative. -/
theorem segLen_nonneg (p q : Pt3) : 0 ≤ segLen p q :=
  Real.sqrt_nonneg _

/-- The distance from a point to itself is zero. -/
theorem segLen_self (p : Pt3) : segLen p p = 0 := by
  unfold segLen
  simp [Real.sqrt_eq_zero']

/-- The total arc length is nonnegative. -/
theorem totalLen_nonneg : ∀ pts : List Pt3, 0 ≤ totalLen pts
  | [] => le_refl 0
  | [_] => le_refl 0
  | p :: q :: rest =>
    add_nonneg (segLen_nonneg p q) (totalLen_nonneg (q :: rest))

/-- A polyline of zero total planar length and without vertical jumps never
moves away from its head. -/
theorem getLast_eq_head_of_totalLen_zero :
    ∀ (q : Pt3) (rest : List Pt3), noVerticalJump (q :: rest) →
      totalLen (q :: rest) = 0 →
      (q :: rest).getLast (List.cons_ne_nil q rest) = q
  | _, [], _, _ => rfl
  | q, r :: rest', hnz, h => by
    have hseg : segLen q r = 0 ∧ totalLen (r :: rest') = 0 := by
      have h1 := segLen_nonneg q r
      have h2 := totalLen_nonneg (r :: rest')
      have : segLen q r + totalLen (r :: rest') = 0 := h
      constructor <;> linarith
    obtain ⟨hqr, hrest⟩ := List.chain'_cons.1 hnz
    have hr : r = q := hqr hseg.1
    rw [List.getLast_cons (List.cons_ne_nil r rest')]
    rw [getLast_eq_head_of_totalLen_zero r rest' hrest hseg.2, hr]

/-- Interpolating at distance 0 returns the first point (in particular no
division by zero occurs on a degenerate leading segment: `0 / 0 = 0` selects
the segment's start, as `interpolate` does on a zero-length line). -/
theorem interpolateAt_zero : ∀ (p : Pt3) (rest : List Pt3),
    interpolateAt (p :: rest) 0 = p
  | _, [] => rfl
  | p, q :: rest' => by
    unfold interpolateAt
    rw [if_pos (segLen_nonneg p q)]
    unfold lerp
    ext <;> simp

/-- On a polyline without vertical jumps, interpolating at the total planar
arc length returns the last point. -/
theorem interpolateAt_totalLen : ∀ (p : Pt3) (rest : List Pt3),
    noVerticalJump (p :: rest) →
    interpolateAt (p :: rest) (totalLen (p :: rest)) =
      (p :: rest).getLast (List.cons_ne_nil p rest)
  | _, [], _ => rfl
  | p, q :: rest', hnz => by
    obtain ⟨hpq, hrest⟩ := List.chain'_cons.1 hnz
    have hT : 0 ≤ totalLen (q :: rest') := totalLen_nonneg (q :: rest')
    have htot : totalLen (p :: q :: rest') =
        segLen p q + totalLen (q :: rest') := rfl
    rw [List.getLast_cons (List.cons_ne_nil q rest')]
    by_cases hzero : totalLen (q :: rest') = 0
    · have hd : totalLen (p :: q :: rest') = segLen p q := by
        rw [htot, hzero, add_zero]
      unfold interpolateAt
      rw [hd, if_pos (le_refl _)]
      rw [getLast_eq_head_of_totalLen_zero q rest' hrest hzero]
      by_cases hl : segLen p q = 0
      · rw [hl, div_zero]
        unfold lerp
        rw [hpq hl]
        ext <;> simp
      · rw [div_self hl]
        unfold lerp
        ext <;> simp
    · have hpos : 0 < totalLen (q :: rest') := lt_of_le_of_ne hT (Ne.symm hzero)
      unfold interpolateAt
      rw [htot, if_neg (by linarith)]
      rw [add_sub_cancel_left]
      exact interpolateAt_totalLen q rest' hrest

/-- The sample list `np.linspace(0, L, n)` has `n` entries. -/
theorem linspace_length (len : ℝ) (n : ℕ) : (linspace len n).length = n := by
  simp [linspace]

/-- The first sample distance is 0. -/
theorem linspace_head? (len : ℝ) (n : ℕ) (hn : 1 ≤ n) :
    (linspace len n).head? = some 0 := by
  obtain ⟨m, rfl⟩ : ∃ m, n = m + 1 := ⟨n - 1, by omega⟩
  rw [linspace, List.range_succ_eq_map]
  simp only [List.map_cons, List.head?_cons]
  split_ifs <;> simp

/-- The last sample distance is exactly `L` (numpy's `linspace` includes the
endpoint). -/
theorem linspace_getLast? (len : ℝ) (n : ℕ) (hn : 2 ≤ n) :
    (linspace len n).getLast? = some len := by
  obtain ⟨m, rfl⟩ : ∃ m, n = m + 2 := ⟨n - 2, by omega⟩
  rw [linspace, List.range_succ, List.map_append]
  simp only [List.map_cons, List.map_nil]
  rw [List.getLast?_concat]
  have hne : ((m + 2 : ℕ) : ℝ) - 1 ≠ 0 := by
    push_cast
    intro h
    have : (m : ℝ) ≥ 0 := Nat.cast_nonneg m
    linarith
  rw [if_neg (by omega)]
  have : ((m + 1 : ℕ) : ℝ) = ((m + 2 : ℕ) : ℝ) - 1 := by push_cast; ring
  rw [this, mul_div_assoc, div_self hne, mul_one]

/-- The sample distances of a zero-length line are all zero. -/
theorem linspace_zero (n : ℕ) : linspace 0 n = List.replicate n (0 : ℝ) := by
  rw [linspace]
  have h0 : ∀ i ∈ List.range n,
      (if n ≤ 1 then (0 : ℝ) else 0 * (i : ℝ) / ((n : ℝ) - 1)) = 0 := by
    intro i _
    split_ifs
    · rfl
    · rw [zero_mul, zero_div]
  rw [List.map_congr_left h0, List.map_const', List.length_range]

/-- Resampling a nonempty polyline without vertical jumps to `numPoint`
points returns exactly `numPoint` points whose first and last points are the
input's first and last points. -/
theorem interpolate_points_spec (p : Pt3) (rest : List Pt3) (numPoint : ℕ)
    (hn : 2 ≤ numPoint) (hnz : noVerticalJump (p :: rest)) :
    (interpolate_points (p :: rest) numPoint).length = numPoint ∧
    (interpolate_points (p :: rest) numPoint).head? = some p ∧
    (interpolate_points (p :: rest) numPoint).getLast? =
      some ((p :: rest).getLast (List.cons_ne_nil p rest)) := by
  refine ⟨?_, ?_, ?_⟩
  · rw [interpolate_points, List.length_map, linspace_length]
  · rw [interpolate_points, List.head?_map,
      linspace_head? _ _ (by omega)]
    rw [Option.map_some']
    rw [interpolateAt_zero]
  · rw [interpolate_points, List.getLast?_map,
      linspace_getLast? _ _ hn]
    rw [Option.map_some']
    rw [interpolateAt_totalLen p rest hnz]

/-- C5 counterexample: the polyline from (0,0,0) to (0,0,5) has two distinct
points and positive three-dimensional extent, but `LineString.length` is
planar, so the code computes arc length 0, samples `linspace(0, 0, 20)` (all
zeros), and returns 20 copies of a single vertex: the two distinct input
endpoints cannot both be preserved. -/
theorem c5_counterexample :
    2 ≤ ([⟨0, 0, 0⟩, ⟨0, 0, 5⟩] : List Pt3).length ∧
    (⟨0, 0, 0⟩ : Pt3) ≠ ⟨0, 0, 5⟩ ∧
    totalLen [⟨0, 0, 0⟩, ⟨0, 0, 5⟩] = 0 ∧
    (interpolate_points [⟨0, 0, 0⟩, ⟨0, 0, 5⟩] 20).length = 20 ∧
    ¬ ((interpolate_points [⟨0, 0, 0⟩, ⟨0, 0, 5⟩] 20).head? =
        ([⟨0, 0, 0⟩, ⟨0, 0, 5⟩] : List Pt3).head? ∧
       (interpolate_points [⟨0, 0, 0⟩, ⟨0, 0, 5⟩] 20).getLast? =
        ([⟨0, 0, 0⟩, ⟨0, 0, 5⟩] : List Pt3).getLast?) := by
  have hne : (⟨0, 0, 0⟩ : Pt3) ≠ ⟨0, 0, 5⟩ := by
    intro h
    have := congrArg Pt3.z h
    norm_num at this
  have hlen0 : totalLen [(⟨0, 0, 0⟩ : Pt3), ⟨0, 0, 5⟩] = 0 := by
    have : totalLen [(⟨0, 0, 0⟩ : Pt3), ⟨0, 0, 5⟩] =
        segLen ⟨0, 0, 0⟩ ⟨0, 0, 5⟩ + 0 := rfl
    rw [this, add_zero]
    unfold segLen
    norm_num
  have hout : interpolate_points [(⟨0, 0, 0⟩ : Pt3), ⟨0, 0, 5⟩] 20 =
      List.replicate 20 (⟨0, 0, 0⟩ : Pt3) := by
    rw [interpolate_points, hlen0, linspace_zero, List.map_replicate,
      interpolateAt_zero]
  refine ⟨by norm_num, hne, hlen0, by rw [hout]; rfl, ?_⟩
  rintro ⟨-, hlast⟩
  rw [hout, List.getLast?_replicate] at hlast
  have h5 : some (⟨0, 0, 0⟩ : Pt3) = some ⟨0, 0, 5⟩ := by
    rw [if_neg (by norm_num)] at hlast
    exact hlast
  have := congrArg (fun o => (o.getD ⟨0, 0, 0⟩).z) h5
  norm_num at this

/-- C5 (amended): resampling any polyline with at least 2 points, positive
planar arc length and no vertical jump (no zero-planar-length segment joining
points that differ in z) to a target count `K ≥ 2` returns exactly `K` points
whose first and last points equal the input's; consequently, after
`_fix_point_num` every lane centerline, left boundary and right boundary
without vertical jumps has exactly 20 points with the original endpoints
preserved.  Without the no-vertical-jump condition the planar measure
collapses z-only extent and an endpoint can be lost (see
the counterexample). -/
theorem c5_resampling_count_and_endpoints
    (pts : List Pt3) (numPoint : ℕ)
    (hp : 2 ≤ pts.length) (hL : 0 < totalLen pts)
    (hnz : noVerticalJump pts) (hn : 2 ≤ numPoint) :
    ((interpolate_points pts numPoint).length = numPoint ∧
     (interpolate_points pts numPoint).head? = pts.head? ∧
     (interpolate_points pts numPoint).getLast? = pts.getLast?) ∧
    (∀ seg : RawLaneSegment,
      2 ≤ seg.centerline.length → 2 ≤ seg.leftBoundary.length →
      2 ≤ seg.rightBoundary.length →
      noVerticalJump seg.centerline → noVerticalJump seg.leftBoundary →
      noVerticalJump seg.rightBoundary →
      (fix_point_num seg).centerline.length = 20 ∧
      (fix_point_num seg).leftBoundary.length = 20 ∧
      (fix_point_num seg).rightBoundary.length = 20 ∧
      (fix_point_num seg).centerline.head? = seg.centerline.head? ∧
      (fix_point_num seg).centerline.getLast? = seg.centerline.getLast? ∧
      (fix_point_num seg).leftBoundary.head? = seg.leftBoundary.head? ∧
      (fix_point_num seg).leftBoundary.getLast? = seg.leftBoundary.getLast? ∧
      (fix_point_num seg).rightBoundary.head? = seg.rightBoundary.head? ∧
      (fix_point_num seg).rightBoundary.getLast? = seg.rightBoundary.getLast?) := by
  have main : ∀ l : List Pt3, 2 ≤ l.length → noVerticalJump l → ∀ k, 2 ≤ k →
      (interpolate_points l k).length = k ∧
      (interpolate_points l k).head? = l.head? ∧
      (interpolate_points l k).getLast? = l.getLast? := by
    intro l hl hlnz k hk
    match l, hl, hlnz with
    | p :: rest, _, hlnz =>
      obtain ⟨h1, h2, h3⟩ := interpolate_points_spec p rest k hk hlnz
      refine ⟨h1, ?_, ?_⟩
      · rw [h2, List.head?_cons]
      · rw [h3, List.getLast?_eq_getLast (p :: rest) (List.cons_ne_nil p rest)]
  refine ⟨main pts hp hnz numPoint hn, ?_⟩
  intro seg hc hlb hrb hcz hlz hrz
  obtain ⟨c1, c2, c3⟩ := main seg.centerline hc hcz 20 (by omega)
  obtain ⟨l1, l2, l3⟩ := main seg.leftBoundary hlb hlz 20 (by omega)
  obtain ⟨r1, r2, r3⟩ := main seg.rightBoundary hrb hrz 20 (by omega)
  exact ⟨c1, l1, r1, c2, c3, l2, l3, r2, r3⟩

/-- Witness for the amended C5 at the concrete two-point polyline from the
origin to (3, 4, 0), of planar arc length 5, resampled to 20 points. -/
theorem c5_resampling_count_and_endpoints_witness :
    (0 : ℝ) < totalLen [⟨0, 0, 0⟩, ⟨3, 4, 0⟩] ∧
    noVerticalJump [(⟨0, 0, 0⟩ : Pt3), ⟨3, 4, 0⟩] ∧
    (interpolate_points [⟨0, 0, 0⟩, ⟨3, 4, 0⟩] 20).length = 20 := by
  have h25 : segLen (⟨0, 0, 0⟩ : Pt3) ⟨3, 4, 0⟩ = Real.sqrt 25 := by
    unfold segLen
    norm_num
  have hL : (0 : ℝ) < totalLen [⟨0, 0, 0⟩, ⟨3, 4, 0⟩] := by
    have : totalLen [(⟨0, 0, 0⟩ : Pt3), ⟨3, 4, 0⟩] =
        segLen ⟨0, 0, 0⟩ ⟨3, 4, 0⟩ + 0 := rfl
    rw [this, add_zero, h25]
    rw [Real.sqrt_pos]
    norm_num
  have hnz : noVerticalJump [(⟨0, 0, 0⟩ : Pt3), ⟨3, 4, 0⟩] := by
    unfold noVerticalJump
    rw [List.chain'_cons]
    refine ⟨?_, List.chain'_singleton _⟩
    intro h0
    rw [h25] at h0
    rw [Real.sqrt_eq_zero'] at h0
    norm_num at h0
  exact ⟨hL, hnz,
    ((c5_resampling_count_and_endpoints [⟨0, 0, 0⟩, ⟨3, 4, 0⟩] 20
      (by norm_num) hL hnz (by norm_num)).1).1⟩

/-- The total length of a repeated single point is zero. -/
theorem totalLen_replicate (p : Pt3) : ∀ n : ℕ,
    totalLen (List.replicate n p) = 0
  | 0 => rfl
  | 1 => rfl
  | n + 2 => by
    show segLen p p + totalLen (List.replicate (n + 1) p) = 0
    rw [segLen_self, totalLen_replicate p (n + 1), add_zero]

/-- C6: resampling a degenerate polyline (one point repeated, zero arc
length) to `K` points returns exactly `K` copies of that point: every sample
distance is 0 and interpolation at 0 returns the point, with no division by
zero (the `d / length` ratio is the total `0 / 0 = 0`, selecting the start
point) and no undefined value. -/
theorem c6_degenerate_replicates
    (p : Pt3) (n numPoint : ℕ) (hn : 2 ≤ n) :
    interpolate_points (List.replicate n p) numPoint =
      List.replicate numPoint p ∧
    totalLen (List.replicate n p) = 0 := by
  refine ⟨?_, totalLen_replicate p n⟩
  obtain ⟨m, rfl⟩ : ∃ m, n = m + 2 := ⟨n - 2, by omega⟩
  rw [interpolate_points, totalLen_replicate]
  rw [linspace_zero, List.map_replicate]
  have : List.replicate (m + 2) p = p :: List.replicate (m + 1) p := rfl
  rw [this, interpolateAt_zero]

/-- Witness for C6: two copies of (1, 2, 3) resampled to 5 points give 5
copies. -/
theorem c6_degenerate_replicates_witness :
    2 ≤ 2 ∧
    interpolate_points (List.replicate 2 (⟨1, 2, 3⟩ : Pt3)) 5 =
      List.replicate 5 (⟨1, 2, 3⟩ : Pt3) :=
  ⟨by norm_num, (c6_degenerate_replicates ⟨1, 2, 3⟩ 2 5 (by norm_num)).1⟩

end DiffusionPlanner
